import Mathlib

/-!
Verification of the `BTreeReducer<bool>` network-resolution engine from
`src/src/reducer/mod.rs` of the `btree_reducer` repository, shallowly embedded
over the boolean value domain (the only `Output` instance shipped in the
library sources).

The `btree_dag` collaborator (vertex/edge storage) is an external crate whose
sources are not part of this repository; its operations are modelled from the
specification's collaborator contract (§6) and are marked `Modelled from the
spec:` below.  Everything else is translated directly from
`src/src/reducer/mod.rs`.

Rust `.unwrap()` calls on collaborator results (which would panic on error)
are modelled by proceeding with the unmodified graph when the collaborator
reports an error; recursion is made total with an explicit fuel parameter
(`none` = fuel exhausted, which a real execution would experience as
non-termination or a panic).
-/

namespace BTR

/-- `Contact<T>` from `src/src/reducer/mod.rs` (lines 12–21), specialized to
`T = bool`: stable `id`, driven `input`, reference `configuration`, and the
aggregation seed `program`. -/
structure Contact where
  id : Nat
  input : Bool
  configuration : Bool
  program : Bool
deriving DecidableEq

/-- Strict order on `Bool` used by Rust's derived `Ord` (`false < true`). -/
def bLt (a b : Bool) : Bool := !a && b

/-- Rust's `#[derive(PartialOrd, Ord)]` on `Contact`: lexicographic comparison
of the fields in declaration order (`id`, `input`, `configuration`,
`program`). -/
def Contact.lt (a b : Contact) : Bool :=
  if a.id ≠ b.id then decide (a.id < b.id)
  else if a.input ≠ b.input then bLt a.input b.input
  else if a.configuration ≠ b.configuration then bLt a.configuration b.configuration
  else bLt a.program b.program

/-- `btree_dag::error::Error`, the error type shared by the reducer and its
collaborator.  `edgeExists` is the variant the reducer itself constructs for
dimension mismatches and invalid characters (lines 231, 312, 383, 415). -/
inductive Error where
  | edgeExists
  | vertexDoesNotExist
  | edgeDoesNotExist
  | cannotAddEdge
deriving DecidableEq

/-- `Output<bool> for Contact<bool>` (lines 50–55): the fallible node-output
capability; the boolean implementation computes `Ok(input != configuration)`
from the node's own fields alone. -/
def contactOutputR (c : Contact) : Except Error Bool := .ok (c.input != c.configuration)

/-- `c.output().unwrap_or_default()` as used by `_resolve_branch`
(lines 197, 215). -/
def contactOutput (c : Contact) : Bool :=
  match contactOutputR c with
  | Except.ok b => b
  | Except.error _ => false

/-- Modelled from the spec: the boolean `Transition` capability (logical
negation).  The `impl Transition<bool> for bool` is required by
`BTreeReducer<bool>` but is not among the repository's source files; §4.3
fixes it as "boolean: logical negation". -/
def transition (b : Bool) : Bool := !b

/-- Insertion into a sorted duplicate-free list of contacts, the model of
`BTreeSet<Contact<T>>::insert`. -/
def insertC (x : Contact) : List Contact → List Contact
  | [] => [x]
  | y :: ys =>
    if Contact.lt x y then x :: y :: ys
    else if x = y then y :: ys
    else y :: insertC x ys

/-- Insertion (or value replacement) into a sorted association list, the model
of `BTreeMap<Contact<T>, BTreeSet<Contact<T>>>::insert`. -/
def insertEntry (x : Contact) (v : List Contact) :
    List (Contact × List Contact) → List (Contact × List Contact)
  | [] => [(x, v)]
  | (y, w) :: ys =>
    if Contact.lt x y then (x, v) :: (y, w) :: ys
    else if x = y then (x, v) :: ys
    else (y, w) :: insertEntry x v ys

/-- Modelled from the spec: the `btree_dag::BTreeDAG` collaborator — a map
from each vertex to its set of outgoing edges, enumerated in the vertex
order (§6: "`vertices()` -> all nodes in a stable enumeration order"). -/
structure Dag where
  adj : List (Contact × List Contact)
deriving DecidableEq

/-- Modelled from the spec: `vertices()` — all nodes, in enumeration order. -/
def Dag.vertices (d : Dag) : List Contact := d.adj.map Prod.fst

/-- Modelled from the spec: `connections(v)` — the set of children of `v`,
failing (`none`) when `v` is absent. -/
def Dag.connections (d : Dag) (c : Contact) : Option (List Contact) :=
  (d.adj.find? (fun e => decide (e.1 = c))).map Prod.snd

/-- Modelled from the spec: `add_vertex(v)` — inserts the vertex with no
outgoing edges (`BTreeMap::insert(v, BTreeSet::new())`). -/
def Dag.addVertex (d : Dag) (x : Contact) : Dag :=
  ⟨insertEntry x [] d.adj⟩

/-- Bounded reachability test used by the acyclicity check of `add_edge`. -/
def Dag.reachesAux (d : Dag) : Nat → Contact → Contact → Bool
  | 0, x, y => x = y
  | n + 1, x, y =>
    decide (x = y) || ((d.connections x).getD []).any (fun c => d.reachesAux n c y)

/-- Is there a directed path `x →* y`?  Path lengths in an acyclic graph are
bounded by the number of vertices, so that much fuel is complete. -/
def Dag.reaches (d : Dag) (x y : Contact) : Bool :=
  d.reachesAux d.adj.length x y

/-- Modelled from the spec: `add_edge(parent, child)` — fails if either
endpoint is absent or the edge already exists (§4.2, §6), and maintains the
container's DAG property (§2, §4.3 termination) by rejecting edges that would
close a cycle. -/
def Dag.addEdge (d : Dag) (x y : Contact) : Except Error Dag :=
  match d.connections x with
  | none => .error .vertexDoesNotExist
  | some cx =>
    match d.connections y with
    | none => .error .vertexDoesNotExist
    | some _ =>
      if y ∈ cx then .error .edgeExists
      else if d.reaches y x then .error .cannotAddEdge
      else .ok ⟨insertEntry x (insertC y cx) d.adj⟩

/-- Modelled from the spec: `remove_edge(parent, child)` — fails if the edge
is absent (§4.2, §6). -/
def Dag.removeEdge (d : Dag) (x y : Contact) : Except Error Dag :=
  match d.connections x with
  | none => .error .vertexDoesNotExist
  | some cx =>
    if y ∈ cx then .ok ⟨insertEntry x (cx.erase y) d.adj⟩
    else .error .edgeDoesNotExist

/-- Modelled from the spec: `remove_vertex(v)` — fails if `v` is absent,
otherwise removes `v` from the graph (its own entry and every adjacency set)
and returns its former outgoing edges (§4.2 step 2, §6). -/
def Dag.removeVertex (d : Dag) (x : Contact) : Except Error (List Contact × Dag) :=
  match d.connections x with
  | none => .error .vertexDoesNotExist
  | some cx =>
    .ok (cx, ⟨(d.adj.filter (fun e => decide (e.1 ≠ x))).map (fun e => (e.1, e.2.erase x))⟩)

/-! ## The reducer (`BTreeReducer<bool>`), translated from `src/src/reducer/mod.rs` -/

/-- The dummy contact used where Rust would panic on an impossible empty
vertex list (`vertices[0]` in `root`). -/
def dummyContact : Contact := ⟨0, false, false, false⟩

/-- `BTreeReducer::new` (lines 102–112): a graph holding the single contact
with `id = 0` and all-default fields. -/
def newReducer : Dag := Dag.addVertex ⟨[]⟩ ⟨0, false, false, false⟩

/-- `BTreeReducer::root` (lines 131–134): the first vertex in enumeration
order. -/
def rootC (d : Dag) : Contact := d.vertices.headD dummyContact

/-- `BTreeReducer::get_input_contacts` (lines 171–178): the vertices with no
outgoing edges, in enumeration order. -/
def getInputContacts (d : Dag) : List Contact :=
  d.vertices.filter (fun c => ((d.connections c).getD []).isEmpty)

/-- `Input<Vec<T>>` (lines 259–270): the inputs of the leaf contacts. -/
def inputVec (d : Dag) : List Bool := (getInputContacts d).map Contact.input

/-- `Configuration<Vec<T>>` (lines 336–347): every vertex's configuration, in
enumeration order. -/
def configurationVec (d : Dag) : List Bool := d.vertices.map Contact.configuration

/-- `Program<Vec<T>>` (lines 355–366): every vertex's program, in enumeration
order. -/
def programVec (d : Dag) : List Bool := d.vertices.map Contact.program

/-- The child loop of `_resolve_branch` (lines 203–208): visit the children in
order, recursively resolving each one (`res`), and flip `assumed` (at most
once) at the first settled output that disagrees with it.  `res` is the
recursive resolver at the remaining fuel. -/
def foldChildren (res : Dag → Contact → Option (Bool × Dag)) :
    Dag → List Contact → Bool → Bool → Option (Bool × Bool × Dag)
  | d, [], assumed, flipped => some (assumed, flipped, d)
  | d, c :: cs, assumed, flipped =>
    match res d c with
    | none => none
    | some (o, d') =>
      if (o != assumed) && !flipped then foldChildren res d' cs (transition assumed) true
      else foldChildren res d' cs assumed flipped

/-- The parent loop at the end of `BTreeReducer::update` (lines 163–168):
re-add `parent → u` (an `unwrap`ped `add_edge`) and immediately re-run
resolution rooted at that parent. -/
def parentLoop (res : Dag → Contact → Option (Bool × Dag)) (u : Contact) :
    Dag → List Contact → Option Dag
  | d, [] => some d
  | d, p :: ps =>
    let d1 := match d.addEdge p u with
      | .ok dd => dd
      | .error _ => d
    match res d1 p with
    | none => none
    | some (_, d2) => parentLoop res u d2 ps

/-- `BTreeReducer::update` (lines 136–169), parameterized by the resolver
`res` used on the previous parents: collect the vertices holding an edge to
`p`; remove `p`, capturing its outgoing edges; insert `u`; re-add an edge
`u → child` for every previous child; then re-add `parent → u` for every
previous parent, resolving at that parent right away. -/
def updateWith (res : Dag → Contact → Option (Bool × Dag)) (d : Dag) (p u : Contact) :
    Option Dag :=
  let previousParents := d.vertices.filter (fun v => p ∈ (d.connections v).getD [])
  let removal : Option (List Contact) × Dag :=
    match d.removeVertex p with
    | .ok (children, d') => (some children, d')
    | .error _ => (none, d)
  let d2 := removal.2.addVertex u
  let d3 := match removal.1 with
    | some children =>
      children.foldl (fun acc ch =>
        match acc.addEdge u ch with
        | .ok dd => dd
        | .error _ => acc) d2
    | none => d2
  parentLoop res u d3 previousParents

/-- `BTreeReducer::_resolve_branch` (lines 192–222), with explicit fuel:
tentative result is the node's own output; when the node has children, fold
them (first disagreement flips the `program` seed once), and when the settled
`assumed` value differs from the node's stored `input`, replace the node via
`update` and report the replacement's output. -/
def resolveBranch : Nat → Dag → Contact → Option (Bool × Dag)
  | 0, _, _ => none
  | n + 1, d, c =>
    let finalState := contactOutput c
    match d.connections c with
    | none => some (finalState, d)
    | some contacts =>
      if contacts.isEmpty then some (finalState, d)
      else
        match foldChildren (resolveBranch n) d contacts c.program false with
        | none => none
        | some (assumed, _, d1) =>
          if c.input != assumed then
            match updateWith (resolveBranch n) d1 c { c with input := assumed } with
            | none => none
            | some d2 => some (contactOutput { c with input := assumed }, d2)
          else some (finalState, d1)

/-- `BTreeReducer::add_contact` (lines 114–129): create a contact with the
last vertex's id plus one and default fields, wire `parent → new`, then
resolve from the root. -/
def addContact (n : Nat) (d : Dag) (c : Contact) : Option (Contact × Dag) :=
  let contact : Contact := ⟨(d.vertices.getLastD dummyContact).id + 1, false, false, false⟩
  let d1 := d.addVertex contact
  let d2 := match d1.addEdge c contact with
    | .ok dd => dd
    | .error _ => d1
  match resolveBranch n d2 (rootC d2) with
  | none => none
  | some (_, d3) => some (contact, d3)

/-- `BTreeReducer::short` (lines 180–182): a plain `add_edge`. -/
def shortR (d : Dag) (x y : Contact) : Except Error Dag := d.addEdge x y

/-- `BTreeReducer::remove_short` (lines 184–190): a plain `remove_edge`. -/
def removeShortR (d : Dag) (x y : Contact) : Except Error Dag := d.removeEdge x y

/-- `Output<T> for BTreeReducer` (lines 281–290): resolve from the root. -/
def outputR (n : Nat) (d : Dag) : Option (Bool × Dag) := resolveBranch n d (rootC d)

/-- The update loop shared by the three bulk setters: for each (snapshot
vertex, new value) pair whose new value differs from the selected field,
replace the vertex by the copy with that field changed. -/
def applyPairs (n : Nat) (field : Contact → Bool) (set : Contact → Bool → Contact) :
    Dag → List (Contact × Bool) → Option Dag
  | d, [] => some d
  | d, (v, s) :: rest =>
    if field v != s then
      match updateWith (resolveBranch n) d v (set v s) with
      | none => none
      | some d' => applyPairs n field set d' rest
    else applyPairs n field set d rest

/-- `Reinput<Vec<T>> for BTreeReducer` (lines 303–323): dimension-check the
vector against the current leaf inputs, then update each genuinely changed
leaf. -/
def reinputV (n : Nat) (d : Dag) (iv : List Bool) : Option (Except Error Unit × Dag) :=
  if (inputVec d).length ≠ iv.length then some (.error .edgeExists, d)
  else
    match applyPairs n Contact.input (fun c b => { c with input := b }) d
        ((getInputContacts d).zip iv) with
    | none => none
    | some d' => some (.ok (), d')

/-- `Reconfigure<Vec<T>> for BTreeReducer` (lines 374–394): dimension-check
against all vertices, then update each genuinely changed vertex of the
snapshot. -/
def reconfigureV (n : Nat) (d : Dag) (cv : List Bool) : Option (Except Error Unit × Dag) :=
  if (configurationVec d).length ≠ cv.length then some (.error .edgeExists, d)
  else
    match applyPairs n Contact.configuration (fun c b => { c with configuration := b }) d
        (d.vertices.zip cv) with
    | none => none
    | some d' => some (.ok (), d')

/-- `Reprogram<Vec<T>> for BTreeReducer` (lines 407–427): dimension-check
against all vertices, then update each genuinely changed vertex of the
snapshot. -/
def reprogramV (n : Nat) (d : Dag) (pv : List Bool) : Option (Except Error Unit × Dag) :=
  if (programVec d).length ≠ pv.length then some (.error .edgeExists, d)
  else
    match applyPairs n Contact.program (fun c b => { c with program := b }) d
        (d.vertices.zip pv) with
    | none => none
    | some d' => some (.ok (), d')

/-- `BTreeReducer::try_str_to_bool` (lines 223–235): `'0'` decodes to `false`,
`'1'` to `true`, anything else aborts with `Error::EdgeExistsError`. -/
def tryStrToBool : List Char → Except Error (List Bool)
  | [] => .ok []
  | ch :: rest =>
    if ch = '0' then (tryStrToBool rest).map (fun v => false :: v)
    else if ch = '1' then (tryStrToBool rest).map (fun v => true :: v)
    else .error .edgeExists

/-- `BTreeReducer::bool_to_str` (lines 237–247): `false` encodes to `'0'`,
`true` to `'1'`. -/
def boolToStr : List Bool → List Char
  | [] => []
  | b :: rest => (if !b then '0' else '1') :: boolToStr rest

/-- `Reinput<String>` (lines 325–334): decode, then delegate to the vector
form. -/
def reinputS (n : Nat) (d : Dag) (s : List Char) : Option (Except Error Unit × Dag) :=
  match tryStrToBool s with
  | .error e => some (.error e, d)
  | .ok v => reinputV n d v

/-- `Reconfigure<String>` (lines 396–405): decode, then delegate. -/
def reconfigureS (n : Nat) (d : Dag) (s : List Char) : Option (Except Error Unit × Dag) :=
  match tryStrToBool s with
  | .error e => some (.error e, d)
  | .ok v => reconfigureV n d v

/-- `Reprogram<String>` (lines 429–438): decode, then delegate. -/
def reprogramS (n : Nat) (d : Dag) (s : List Char) : Option (Except Error Unit × Dag) :=
  match tryStrToBool s with
  | .error e => some (.error e, d)
  | .ok v => reprogramV n d v

/-! ## Specification-side definitions (for the refinement claims C1 and C2)

The following definitions are written from the specification's words (§4.2
`update`, §4.3 resolution), to be compared with the source-translated
`updateWith`/`resolveBranch` above. -/

/-- Resolve each listed child in order purely for its recursive settling and
side effects, discarding the settled outputs. -/
def resolveSeq (res : Dag → Contact → Option (Bool × Dag)) :
    Dag → List Contact → Option Dag
  | d, [] => some d
  | d, c :: cs =>
    match res d c with
    | none => none
    | some (_, d') => resolveSeq res d' cs

/-- §4.3 step 2c, written from the spec: for every child, in enumeration
order, recursively resolve the child obtaining its settled output; if that
output differs from `assumed` and `flipped` is still false, set
`assumed = transition(assumed)` and `flipped = true`; children after the
first mismatch are consulted but do not further change `assumed`. -/
def specChildLoop (res : Dag → Contact → Option (Bool × Dag)) :
    Dag → List Contact → Bool → Bool → Option (Bool × Dag)
  | d, [], assumed, _ => some (assumed, d)
  | d, ch :: rest, assumed, flipped =>
    match res d ch with
    | none => none
    | some (settled, d') =>
      if flipped then specChildLoop res d' rest assumed true
      else if settled ≠ assumed then specChildLoop res d' rest (transition assumed) true
      else specChildLoop res d' rest assumed false

/-- §4.2 step 5, written from the spec: re-add an edge `parent → new` for
every previous parent, and for each such parent immediately re-run resolution
rooted at that parent. -/
def specParentPass (res : Dag → Contact → Option (Bool × Dag)) (newNode : Contact) :
    Dag → List Contact → Option Dag
  | d, [] => some d
  | d, parent :: rest =>
    let withEdge := match d.addEdge parent newNode with
      | .ok dd => dd
      | .error _ => d
    match res withEdge parent with
    | none => none
    | some (_, resolved) => specParentPass res newNode resolved rest

/-- §4.2 `update(old, new)`, written from the spec's five steps: (1) collect
every node currently holding an edge to `old`; (2) remove `old` from the
graph, capturing its outgoing edges; (3) insert `new`; (4) re-add an edge
`new → child` for every previous child; (5) re-add `parent → new` for every
previous parent, resolving at that parent immediately. -/
def updateSpec (res : Dag → Contact → Option (Bool × Dag)) (d : Dag)
    (old newNode : Contact) : Option Dag :=
  let previousParents := d.vertices.filter (fun v => old ∈ (d.connections v).getD [])
  let afterRemoval : Option (List Contact) × Dag :=
    match d.removeVertex old with
    | .ok (previousChildren, d') => (some previousChildren, d')
    | .error _ => (none, d)
  let inserted := afterRemoval.2.addVertex newNode
  let withChildEdges := match afterRemoval.1 with
    | some previousChildren =>
      previousChildren.foldl (fun acc child =>
        match acc.addEdge newNode child with
        | .ok dd => dd
        | .error _ => acc) inserted
    | none => inserted
  specParentPass res newNode withChildEdges previousParents

/-- §4.3 resolution, written from the spec's steps 1–3: tentatively set
`result = c.output()`; if `c` has at least one child, run the child loop
seeded with `assumed = c.program()` and `flipped = false`, and if
`c.input() != assumed`, build the replacement with `input = assumed`, call
`update(c, replacement)` and set `result = replacement.output()`; finally
return `result`. -/
def resolveBranchSpec : Nat → Dag → Contact → Option (Bool × Dag)
  | 0, _, _ => none
  | n + 1, d, c =>
    let result := contactOutput c
    let children := (d.connections c).getD []
    if children = [] then some (result, d)
    else
      match specChildLoop (resolveBranchSpec n) d children c.program false with
      | none => none
      | some (assumed, d1) =>
        if c.input ≠ assumed then
          let replacement : Contact := { c with input := assumed }
          match updateSpec (resolveBranchSpec n) d1 c replacement with
          | none => none
          | some d2 => some (contactOutput replacement, d2)
        else some (result, d1)

/-! ## Public-surface command sequences (reachability) -/

/-- One call of the public surface (`add_gate`, `short`, `remove_short`,
`reinput`, `reconfigure`, `reprogram`, `output`). -/
inductive Cmd where
  | addGate (c : Contact)
  | short (x y : Contact)
  | removeShort (x y : Contact)
  | reinput (iv : List Bool)
  | reconfigure (cv : List Bool)
  | reprogram (pv : List Bool)
  | output
deriving DecidableEq

/-- Execute one public call on the network; a call that returns an error
leaves the state it reports, and a call whose resolution runs out of fuel
(which a real execution would experience as non-termination) is dropped. -/
def stepCmd (n : Nat) (d : Dag) : Cmd → Dag
  | .addGate c =>
    match addContact n d c with
    | some (_, d') => d'
    | none => d
  | .short x y =>
    match shortR d x y with
    | .ok d' => d'
    | .error _ => d
  | .removeShort x y =>
    match removeShortR d x y with
    | .ok d' => d'
    | .error _ => d
  | .reinput iv =>
    match reinputV n d iv with
    | some (_, d') => d'
    | none => d
  | .reconfigure cv =>
    match reconfigureV n d cv with
    | some (_, d') => d'
    | none => d
  | .reprogram pv =>
    match reprogramV n d pv with
    | some (_, d') => d'
    | none => d
  | .output =>
    match outputR n d with
    | some (_, d') => d'
    | none => d

/-- The network state after a sequence of public calls on a fresh network. -/
def runCmds (n : Nat) (cmds : List Cmd) : Dag :=
  cmds.foldl (stepCmd n) newReducer

/-- Keys of the adjacency list are strictly sorted — the `BTreeMap`
representation invariant. -/
def sortedKeys (l : List (Contact × List Contact)) : Prop :=
  l.Pairwise (fun a b => Contact.lt a.1 b.1 = true)

/-- The network invariant behind claim C8: the adjacency map is sorted and
some vertex carries `id = 0`. -/
def Inv (d : Dag) : Prop :=
  sortedKeys d.adj ∧ ∃ c ∈ d.vertices, c.id = 0

/-- Mixed-radix encoding of a contact, ordered exactly like `Contact.lt`. -/
def Contact.keyN (c : Contact) : Nat :=
  ((c.id * 2 + c.input.toNat) * 2 + c.configuration.toNat) * 2 + c.program.toNat

/-! ## Concrete scenarios -/

/-- Keep only a successful (`Ok`) bulk-setter result. -/
def asOk (x : Option (Except Error Unit × Dag)) : Option Dag :=
  match x with
  | some (.ok _, d) => some d
  | _ => none

/-- The AND truth-table scenario of `unit_tests::and_truth_table`
(lines 760–848): root → series → two leaves, `program` vector
`[false, true, false, false]`, then inputs `(t,f)`, `(t,t)`, `(f,t)` in
sequence, collecting the three root outputs. -/
def andScenario : Option (List Bool) := do
  let d0 := newReducer
  let (series, d1) ← addContact 50 d0 (rootC d0)
  let (_, d2) ← addContact 50 d1 series
  let (_, d3) ← addContact 50 d2 series
  let d4 ← asOk (reprogramV 50 d3 [false, true, false, false])
  let d5 ← asOk (reinputV 50 d4 [true, false])
  let (o1, d6) ← outputR 50 d5
  let d7 ← asOk (reinputV 50 d6 [true, true])
  let (o2, d8) ← outputR 50 d7
  let d9 ← asOk (reinputV 50 d8 [false, true])
  let (o3, _) ← outputR 50 d9
  pure [o1, o2, o3]

/-- A reachable network built by public calls only: root → series → two
leaves, a short `root → leftmost leaf-parent`... concretely: three
`add_gate`s, `short(vertices[0], vertices[2])`,
`reconfigure([f,t,f,t])`, then `short(vertices[2], vertices[3])`.  After
the reconfigure the network is left unsettled by the final short. -/
def ceBuild : Option Dag := do
  let d0 := newReducer
  let (s, d1) ← addContact 50 d0 (rootC d0)
  let (_, d2) ← addContact 50 d1 s
  let (_, d3) ← addContact 50 d2 s
  let v := d3.vertices
  let d4 ← match shortR d3 (v.getD 0 dummyContact) (v.getD 2 dummyContact) with
    | .ok dd => some dd
    | .error _ => none
  let d5 ← asOk (reconfigureV 50 d4 [false, true, false, true])
  let w := d5.vertices
  match shortR d5 (w.getD 2 dummyContact) (w.getD 3 dummyContact) with
  | .ok dd => some dd
  | .error _ => none

/-- Two successive `output()` calls on the network built by `ceBuild`, with
no intervening mutation. -/
def ceOutputs : Option (Bool × Bool) := do
  let d ← ceBuild
  let (o1, d1) ← outputR 50 d
  let (o2, _) ← outputR 50 d1
  pure (o1, o2)

/-! ## Theorems -/

/-- Decoding aborts with `Error::EdgeExistsError` as soon as the string holds
a character other than `'0'` and `'1'`. -/
theorem tryStrToBool_invalid {s : List Char}
    (h : ∃ c ∈ s, c ≠ '0' ∧ c ≠ '1') :
    tryStrToBool s = .error .edgeExists := by
  induction s with
  | nil => simp at h
  | cons ch rest ih =>
    by_cases h0 : ch = '0'
    · have hrest : ∃ c ∈ rest, c ≠ '0' ∧ c ≠ '1' := by
        rcases h with ⟨c, hc, hne⟩
        rcases List.mem_cons.mp hc with rfl | hmem
        · exact absurd h0 hne.1
        · exact ⟨c, hmem, hne⟩
      simp [tryStrToBool, h0, ih hrest, Except.map]
    · by_cases h1 : ch = '1'
      · have hrest : ∃ c ∈ rest, c ≠ '0' ∧ c ≠ '1' := by
          rcases h with ⟨c, hc, hne⟩
          rcases List.mem_cons.mp hc with rfl | hmem
          · exact absurd h1 hne.2
          · exact ⟨c, hmem, hne⟩
        simp [tryStrToBool, h0, h1, ih hrest, Except.map]
      · simp [tryStrToBool, h0, h1]

/-- Decoding a string of valid characters yields the bit at each position. -/
theorem tryStrToBool_valid {s : List Char}
    (h : ∀ c ∈ s, c = '0' ∨ c = '1') :
    tryStrToBool s = .ok (s.map (fun c => c == '1')) := by
  induction s with
  | nil => rfl
  | cons ch rest ih =>
    have hrest : ∀ c ∈ rest, c = '0' ∨ c = '1' := fun c hc => h c (List.mem_cons_of_mem _ hc)
    rcases h ch (List.mem_cons_self _ _) with rfl | rfl
    · simp [tryStrToBool, ih hrest, Except.map]
    · simp [tryStrToBool, ih hrest, Except.map]

/-- C5: for every vector of booleans (all-false, all-true, or mixed), decoding
the string produced by encoding it succeeds and returns exactly the original
vector: `try_str_to_bool(bool_to_str(v)) = Ok(v)`. -/
theorem c5_string_round_trip (v : List Bool) :
    tryStrToBool (boolToStr v) = .ok v := by
  induction v with
  | nil => rfl
  | cons b rest ih => cases b <;> simp [boolToStr, tryStrToBool, ih, Except.map]

/-- C9: for every boolean node, `output()` returns `Ok(input != configuration)`
— a pure function of the node's own two fields, never an error. -/
theorem c9_contact_output (c : Contact) :
    contactOutputR c = .ok (decide (c.input ≠ c.configuration)) := by
  cases h1 : c.input <;> cases h2 : c.configuration <;> simp [contactOutputR, h1, h2]

/-- C3: each of `reinput`/`reconfigure`/`reprogram` called with a vector whose
length differs from the number of addressed nodes (leaf contacts for
`reinput`, all vertices for the other two) returns the dimension-mismatch
error (`Error::EdgeExistsError`) with the network completely unmodified. -/
theorem c3_dimension_mismatch_atomic (n : Nat) (d : Dag) (iv cv pv : List Bool)
    (hi : iv.length ≠ (inputVec d).length)
    (hc : cv.length ≠ (configurationVec d).length)
    (hp : pv.length ≠ (programVec d).length) :
    reinputV n d iv = some (.error .edgeExists, d) ∧
    reconfigureV n d cv = some (.error .edgeExists, d) ∧
    reprogramV n d pv = some (.error .edgeExists, d) := by
  refine ⟨?_, ?_, ?_⟩
  · unfold reinputV; rw [if_pos (Ne.symm hi)]
  · unfold reconfigureV; rw [if_pos (Ne.symm hc)]
  · unfold reprogramV; rw [if_pos (Ne.symm hp)]

/-- Witness for C3 on a concrete fresh network and concrete wrongly-sized
vectors. -/
theorem c3_witness :
    (([true, true] : List Bool).length ≠ (inputVec newReducer).length ∧
      (([] : List Bool)).length ≠ (configurationVec newReducer).length ∧
      ([true, false, true] : List Bool).length ≠ (programVec newReducer).length) ∧
    (reinputV 1 newReducer [true, true] = some (.error .edgeExists, newReducer) ∧
      reconfigureV 1 newReducer [] = some (.error .edgeExists, newReducer) ∧
      reprogramV 1 newReducer [true, false, true] = some (.error .edgeExists, newReducer)) :=
  ⟨⟨by decide, by decide, by decide⟩,
    c3_dimension_mismatch_atomic 1 newReducer [true, true] [] [true, false, true]
      (by decide) (by decide) (by decide)⟩

/-- C7: in the string variants of the bulk setters, `'0'` decodes to `false`
and `'1'` to `true`; a string holding any other character makes the call fail
with the invalid-character error (`Error::EdgeExistsError`) and leaves the
network unmodified. -/
theorem c7_string_variants (n : Nat) (d : Dag) (s t : List Char)
    (hgood : ∀ c ∈ s, c = '0' ∨ c = '1')
    (hbad : ∃ c ∈ t, c ≠ '0' ∧ c ≠ '1') :
    tryStrToBool s = .ok (s.map (fun c => c == '1')) ∧
    reinputS n d t = some (.error .edgeExists, d) ∧
    reconfigureS n d t = some (.error .edgeExists, d) ∧
    reprogramS n d t = some (.error .edgeExists, d) := by
  have herr := tryStrToBool_invalid hbad
  exact ⟨tryStrToBool_valid hgood,
    by simp [reinputS, herr], by simp [reconfigureS, herr], by simp [reprogramS, herr]⟩

/-- Witness for C7 at the concrete strings `"01"` and `"0x"` on a fresh
network. -/
theorem c7_witness :
    ((∀ c ∈ ['0', '1'], c = '0' ∨ c = '1') ∧ (∃ c ∈ ['0', 'x'], c ≠ '0' ∧ c ≠ '1')) ∧
    (tryStrToBool ['0', '1'] = .ok [false, true] ∧
      reinputS 1 newReducer ['0', 'x'] = some (.error .edgeExists, newReducer)) := by
  have h := c7_string_variants 1 newReducer ['0', '1'] ['0', 'x'] (by decide)
    ⟨'x', by decide, by decide, by decide⟩
  exact ⟨⟨by decide, ⟨'x', by decide, by decide, by decide⟩⟩, by simpa using h.1, h.2.1⟩

/-- C10: on a freshly constructed network the root is the single leaf:
`input()` is the one-element vector holding the root's input (`false`),
`reinput` fails with the dimension error for any vector whose length is not
1, and `reinput([b])` succeeds, leaving the network with the root's input
set to `b` (unchanged when `b = false`). -/
theorem c10_fresh_network (n : Nat) (v : List Bool) (b : Bool) (hv : v.length ≠ 1) :
    inputVec newReducer = [(rootC newReducer).input] ∧
    (rootC newReducer).input = false ∧
    reinputV n newReducer v = some (.error .edgeExists, newReducer) ∧
    reinputV n newReducer [b] =
      some (.ok (), Dag.addVertex ⟨[]⟩ ⟨0, b, false, false⟩) := by
  refine ⟨rfl, rfl, ?_, ?_⟩
  · unfold reinputV
    rw [if_pos]
    show (1 : Nat) ≠ v.length
    exact fun h => hv h.symm
  · cases b <;> rfl

/-- Witness for C10 at the concrete wrongly-sized vector `[]` and bit
`true`. -/
theorem c10_witness :
    (([] : List Bool).length ≠ 1) ∧
    (inputVec newReducer = [(rootC newReducer).input] ∧
      (rootC newReducer).input = false ∧
      reinputV 1 newReducer [] = some (.error .edgeExists, newReducer) ∧
      reinputV 1 newReducer [true] =
        some (.ok (), Dag.addVertex ⟨[]⟩ ⟨0, true, false, false⟩)) :=
  ⟨by decide, c10_fresh_network 1 [] true (by decide)⟩

/-- C6: the series tree (root → series → two leaves) with program vector
`[false, true, false, false]` and default configurations realizes the AND
truth table on its two leaf inputs: `(t,f) → f`, `(t,t) → t`, `(f,t) → f`. -/
theorem c6_and_truth_table : andScenario = some [false, true, false] := by rfl

/-- C4 counterexample: `ceBuild` is reachable through public calls only
(three `add_gate`s, a `short`, a `reconfigure`, a `short`), yet the first
`output()` call on it returns `false` and the second — with no intervening
mutation — returns `true`: resolution is not idempotent on every reachable
state. -/
theorem c4_counterexample : ceOutputs = some (false, true) := by rfl

/-- C4 (amended): if the first `output()` call returns `v` and leaves the
network unmodified (an already-settled network), the second call, with no
intervening mutation, also returns `v`. -/
theorem c4_settled_idempotent (n : Nat) (d : Dag) (v : Bool) (d' : Dag)
    (h1 : outputR n d = some (v, d')) (h2 : d' = d) :
    outputR n d' = some (v, d') := by
  subst h2; exact h1

/-- Witness for the amended C4 on the concrete fresh network. -/
theorem c4_settled_witness :
    outputR 1 newReducer = some (false, newReducer) ∧
    outputR 1 newReducer = some (false, newReducer) :=
  ⟨by rfl, c4_settled_idempotent 1 newReducer false newReducer (by rfl) rfl⟩

/-- Once the flip flag is set, the child loop still resolves every remaining
child, in order, but the assumed value passes through unchanged. -/
theorem foldChildren_flipped_const (res : Dag → Contact → Option (Bool × Dag))
    (cs : List Contact) : ∀ (d : Dag) (a : Bool),
    foldChildren res d cs a true =
      (resolveSeq res d cs).map (fun d' => (a, true, d')) := by
  induction cs with
  | nil => intro d a; rfl
  | cons c cs ih =>
    intro d a
    simp only [foldChildren, resolveSeq]
    cases hr : res d c with
    | none => rfl
    | some od =>
      obtain ⟨o, d'⟩ := od
      simpa using ih d' a

/-- The spec's child loop agrees with the source's child loop when their
resolvers agree. -/
theorem specChildLoop_agrees (res res' : Dag → Contact → Option (Bool × Dag))
    (hres : ∀ d c, res d c = res' d c) (cs : List Contact) :
    ∀ (d : Dag) (a f : Bool),
    specChildLoop res' d cs a f =
      (foldChildren res d cs a f).map (fun t => (t.1, t.2.2)) := by
  induction cs with
  | nil => intro d a f; rfl
  | cons c cs ih =>
    intro d a f
    simp only [specChildLoop, foldChildren, ← hres]
    cases hr : res d c with
    | none => rfl
    | some od =>
      obtain ⟨o, d'⟩ := od
      cases f with
      | true => simpa using ih d' a true
      | false =>
        by_cases ho : o = a
        · simpa [ho] using ih d' a false
        · simpa [ho] using ih d' (transition a) true

/-- The spec's parent pass agrees with the source's parent loop when their
resolvers agree. -/
theorem specParentPass_agrees (res res' : Dag → Contact → Option (Bool × Dag))
    (hres : ∀ d c, res d c = res' d c) (u : Contact) (ps : List Contact) :
    ∀ d : Dag, parentLoop res u d ps = specParentPass res' u d ps := by
  induction ps with
  | nil => intro d; rfl
  | cons p ps ih =>
    intro d
    simp only [parentLoop, specParentPass, hres]
    cases hr : res' (match d.addEdge p u with
        | Except.ok dd => dd
        | Except.error _ => d) p with
    | none => rfl
    | some od =>
      obtain ⟨o, d2⟩ := od
      exact ih d2

/-- The source's `update` agrees with the spec's five-step `update` when
their resolvers agree. -/
theorem updateSpec_agrees (res res' : Dag → Contact → Option (Bool × Dag))
    (hres : ∀ d c, res d c = res' d c) (d : Dag) (p u : Contact) :
    updateWith res d p u = updateSpec res' d p u := by
  unfold updateWith updateSpec
  exact specParentPass_agrees res res' hres u _ _

/-- `_resolve_branch` agrees with the specification's resolution procedure at
every fuel, state and node. -/
theorem resolveBranchSpec_agrees :
    ∀ (n : Nat) (d : Dag) (c : Contact),
    resolveBranch n d c = resolveBranchSpec n d c := by
  intro n
  induction n with
  | zero => intro d c; rfl
  | succ n ih =>
    intro d c
    simp only [resolveBranch, resolveBranchSpec]
    cases hcon : d.connections c with
    | none => simp
    | some cs =>
      cases cs with
      | nil => simp [List.isEmpty]
      | cons x xs =>
        simp only [Option.getD_some, List.isEmpty, if_neg (List.cons_ne_nil x xs)]
        rw [specChildLoop_agrees (resolveBranch n) (resolveBranchSpec n) ih (x :: xs)]
        cases hf : foldChildren (resolveBranch n) d (x :: xs) c.program false with
        | none => rfl
        | some t =>
          obtain ⟨a, f, d1⟩ := t
          simp only [Option.map_some]
          by_cases hin : c.input = a
          · simp [hin]
          · simp [hin, bne_iff_ne,
              updateSpec_agrees (resolveBranch n) (resolveBranchSpec n) ih d1 c]

/-- C1: resolving a node with children follows exactly the specified
procedure — seed `assumed = program`, visit the children in enumeration
order, flip the seed by `transition` at the first settled output that
disagrees, and keep resolving (for their side effects) but never change
`assumed` on the children after the first mismatch.  Stated as (i) the
source resolver equals the resolver written from §4.3's words, and (ii) once
flipped, the child loop is exactly "resolve the remaining children in order",
with `assumed` passed through unchanged. -/
theorem c1_resolution_procedure :
    (∀ (n : Nat) (d : Dag) (c : Contact),
      resolveBranch n d c = resolveBranchSpec n d c) ∧
    (∀ (res : Dag → Contact → Option (Bool × Dag)) (d : Dag) (cs : List Contact) (a : Bool),
      foldChildren res d cs a true =
        (resolveSeq res d cs).map (fun d' => (a, true, d'))) :=
  ⟨resolveBranchSpec_agrees, fun res d cs a => foldChildren_flipped_const res cs d a⟩

/-- C2: `update(old, new)` on a network containing `old` follows exactly the
specified procedure: collect every node holding an edge to `old`, remove
`old` capturing its outgoing edges, insert `new`, re-add `new → child` for
every previous child, and re-add `parent → new` for every previous parent,
resolving at that parent immediately — i.e. the source `update` equals the
update written from §4.2's five steps. -/
theorem c2_update_procedure (res : Dag → Contact → Option (Bool × Dag))
    (d : Dag) (old u : Contact) (_hmem : old ∈ d.vertices) :
    updateWith res d old u = updateSpec res d old u :=
  updateSpec_agrees res res (fun _ _ => rfl) d old u

theorem boolToNat_le_one (b : Bool) : b.toNat ≤ 1 := by cases b <;> decide

/-- `Contact.lt` is the strict order induced by the mixed-radix key. -/
theorem lt_eq_keyN (a b : Contact) : Contact.lt a b = decide (a.keyN < b.keyN) := by
  rcases a with ⟨i, x, y, z⟩
  rcases b with ⟨j, x', y', z'⟩
  have hx := boolToNat_le_one x
  have hx' := boolToNat_le_one x'
  have hy := boolToNat_le_one y
  have hy' := boolToNat_le_one y'
  have hz := boolToNat_le_one z
  have hz' := boolToNat_le_one z'
  simp only [Contact.lt, Contact.keyN]
  by_cases hij : i = j
  · subst hij
    rw [if_neg (by simp)]
    cases x <;> cases x' <;> cases y <;> cases y' <;> cases z <;> cases z' <;>
      simp [bLt, decide_eq_true_eq, decide_eq_false_iff_not] <;> omega
  · rw [if_pos hij]
    rcases lt_trichotomy i j with h | h | h
    · have hk : ((i * 2 + x.toNat) * 2 + y.toNat) * 2 + z.toNat <
          ((j * 2 + x'.toNat) * 2 + y'.toNat) * 2 + z'.toNat := by omega
      simp [h, hk]
    · exact absurd h hij
    · have hj : ¬ i < j := by omega
      have hk : ¬ ((i * 2 + x.toNat) * 2 + y.toNat) * 2 + z.toNat <
          ((j * 2 + x'.toNat) * 2 + y'.toNat) * 2 + z'.toNat := by omega
      simp [hj, hk]

/-- Equal keys force equal contacts. -/
theorem keyN_inj {a b : Contact} (h : a.keyN = b.keyN) : a = b := by
  rcases a with ⟨i, x, y, z⟩
  rcases b with ⟨j, x', y', z'⟩
  simp only [Contact.keyN] at h
  cases x <;> cases x' <;> cases y <;> cases y' <;> cases z <;> cases z' <;>
    simp_all <;> omega

theorem lt_trans' {a b c : Contact} (h1 : Contact.lt a b = true)
    (h2 : Contact.lt b c = true) : Contact.lt a c = true := by
  rw [lt_eq_keyN] at h1 h2 ⊢
  simp only [decide_eq_true_eq] at h1 h2 ⊢
  omega

theorem lt_connex {a b : Contact} (h : Contact.lt a b = false) (hne : a ≠ b) :
    Contact.lt b a = true := by
  rw [lt_eq_keyN] at h ⊢
  simp only [decide_eq_false_iff_not] at h
  simp only [decide_eq_true_eq]
  rcases Nat.lt_or_ge b.keyN a.keyN with hlt | hge
  · exact hlt
  · exact absurd (keyN_inj (Nat.le_antisymm (Nat.le_of_not_lt h) hge)).symm hne

theorem lt_id_le {a b : Contact} (h : Contact.lt a b = true) : a.id ≤ b.id := by
  rw [lt_eq_keyN] at h
  simp only [decide_eq_true_eq] at h
  have ha := boolToNat_le_one a.input
  have hb := boolToNat_le_one a.configuration
  have hc := boolToNat_le_one a.program
  have ha' := boolToNat_le_one b.input
  have hb' := boolToNat_le_one b.configuration
  have hc' := boolToNat_le_one b.program
  simp only [Contact.keyN] at h
  omega

/-- Keys after a map insertion are the inserted key plus the previous keys. -/
theorem mem_keys_insertEntry (x : Contact) (v : List Contact)
    (l : List (Contact × List Contact)) (a : Contact) :
    a ∈ (insertEntry x v l).map Prod.fst ↔ a = x ∨ a ∈ l.map Prod.fst := by
  induction l with
  | nil => simp [insertEntry]
  | cons e l ih =>
    obtain ⟨y, w⟩ := e
    simp only [insertEntry]
    by_cases h1 : Contact.lt x y = true
    · rw [if_pos h1]; simp
    · rw [if_neg h1]
      by_cases h2 : x = y
      · subst h2; rw [if_pos rfl]; simp
      · rw [if_neg h2]; simp only [List.map_cons, List.mem_cons, ih]; tauto

/-- Inserting into a sorted map keeps it sorted. -/
theorem sorted_insertEntry (x : Contact) (v : List Contact)
    {l : List (Contact × List Contact)} (hs : sortedKeys l) :
    sortedKeys (insertEntry x v l) := by
  induction l with
  | nil => simp [insertEntry, sortedKeys]
  | cons e l ih =>
    obtain ⟨y, w⟩ := e
    obtain ⟨hy, hl⟩ := List.pairwise_cons.mp hs
    simp only [insertEntry]
    by_cases h1 : Contact.lt x y = true
    · rw [if_pos h1]
      refine List.Pairwise.cons ?_ hs
      rintro ⟨b, bw⟩ hb
      rcases List.mem_cons.mp hb with hb | hb
      · cases hb; exact h1
      · exact lt_trans' h1 (hy _ hb)
    · rw [if_neg h1]
      by_cases h2 : x = y
      · subst h2
        rw [if_pos rfl]
        exact List.Pairwise.cons (fun b hb => hy b hb) hl
      · rw [if_neg h2]
        refine List.Pairwise.cons ?_ (ih hl)
        rintro ⟨b, bw⟩ hb
        have hmem : b ∈ (insertEntry x v l).map Prod.fst :=
          List.mem_map.mpr ⟨(b, bw), hb, rfl⟩
        rcases (mem_keys_insertEntry x v l b).mp hmem with hbx | hbl
        · subst hbx
          exact lt_connex (Bool.eq_false_iff.mpr h1) h2
        · rcases List.mem_map.mp hbl with ⟨e', he', hfst⟩
          have hlt := hy e' he'
          rw [hfst] at hlt
          exact hlt

/-- Sortedness of a map survives filtering entries and rewriting values. -/
theorem sorted_filterMap (p : Contact × List Contact → Bool)
    (f : Contact × List Contact → List Contact)
    {l : List (Contact × List Contact)} (hs : sortedKeys l) :
    sortedKeys ((l.filter p).map (fun e => (e.1, f e))) := by
  have h1 : sortedKeys (l.filter p) := List.Pairwise.sublist (List.filter_sublist l) hs
  rw [sortedKeys, List.pairwise_map]
  exact List.Pairwise.imp (fun h => h) h1

/-- The keys of a filtered-and-revalued map are the keys of the surviving
entries. -/
theorem mem_keys_filterMap (p : Contact × List Contact → Bool)
    (f : Contact × List Contact → List Contact)
    (l : List (Contact × List Contact)) (a : Contact) :
    a ∈ ((l.filter p).map (fun e => (e.1, f e))).map Prod.fst ↔
      ∃ e ∈ l, p e = true ∧ e.1 = a := by
  simp only [List.map_map, List.mem_map, List.mem_filter, Function.comp]
  constructor
  · rintro ⟨e, ⟨he, hp⟩, rfl⟩; exact ⟨e, he, hp, rfl⟩
  · rintro ⟨e, he, hp, rfl⟩; exact ⟨e, ⟨he, hp⟩, rfl⟩

/-- In a sorted nonempty map whose keys include one with `id = 0`, the head
key has `id = 0`. -/
theorem rootC_id_zero {d : Dag} (h : Inv d) :
    rootC d ∈ d.vertices ∧ (rootC d).id = 0 := by
  obtain ⟨hs, c0, hc0, hid⟩ := h
  cases hadj : d.adj with
  | nil =>
    rw [Dag.vertices, hadj] at hc0
    simp at hc0
  | cons e tl =>
    have hv : d.vertices = e.1 :: tl.map Prod.fst := by
      rw [Dag.vertices, hadj, List.map_cons]
    have hroot : rootC d = e.1 := by rw [rootC, hv]; rfl
    refine ⟨by rw [hroot, hv]; exact List.mem_cons_self _ _, ?_⟩
    rw [hroot]
    rw [hv] at hc0
    rcases List.mem_cons.mp hc0 with rfl | htl
    · exact hid
    · rw [sortedKeys, hadj] at hs
      obtain ⟨hhead, _⟩ := List.pairwise_cons.mp hs
      rcases List.mem_map.mp htl with ⟨e', he', hfst⟩
      have := lt_id_le (hhead e' he')
      rw [hfst, hid] at this
      exact Nat.le_zero.mp this

/-- Adding a vertex preserves the network invariant. -/
theorem inv_addVertex {d : Dag} (h : Inv d) (x : Contact) : Inv (d.addVertex x) := by
  obtain ⟨hs, c0, hc0, hid⟩ := h
  exact ⟨sorted_insertEntry x [] hs,
    c0, (mem_keys_insertEntry x [] d.adj c0).mpr (Or.inr hc0), hid⟩

/-- A successful `add_edge` preserves the network invariant. -/
theorem inv_addEdge_ok {d : Dag} {x y : Contact} {dd : Dag}
    (h : Inv d) (he : d.addEdge x y = .ok dd) : Inv dd := by
  obtain ⟨hs, c0, hc0, hid⟩ := h
  unfold Dag.addEdge at he
  cases hcx : d.connections x with
  | none => simp only [hcx] at he; cases he
  | some cx =>
    simp only [hcx] at he
    cases hcy : d.connections y with
    | none => simp only [hcy] at he; cases he
    | some cy =>
      simp only [hcy] at he
      by_cases h1 : y ∈ cx
      · rw [if_pos h1] at he; cases he
      · rw [if_neg h1] at he
        by_cases h2 : d.reaches y x = true
        · rw [if_pos h2] at he; cases he
        · rw [if_neg h2] at he
          cases he
          exact ⟨sorted_insertEntry x (insertC y cx) hs,
            c0, (mem_keys_insertEntry x (insertC y cx) d.adj c0).mpr (Or.inr hc0), hid⟩

/-- A successful `remove_edge` preserves the network invariant. -/
theorem inv_removeEdge_ok {d : Dag} {x y : Contact} {dd : Dag}
    (h : Inv d) (he : d.removeEdge x y = .ok dd) : Inv dd := by
  obtain ⟨hs, c0, hc0, hid⟩ := h
  unfold Dag.removeEdge at he
  cases hcx : d.connections x with
  | none => simp only [hcx] at he; cases he
  | some cx =>
    simp only [hcx] at he
    by_cases h1 : y ∈ cx
    · rw [if_pos h1] at he
      cases he
      exact ⟨sorted_insertEntry x (cx.erase y) hs,
        c0, (mem_keys_insertEntry x (cx.erase y) d.adj c0).mpr (Or.inr hc0), hid⟩
    · rw [if_neg h1] at he; cases he

/-- `add_edge` followed by the reducer's `unwrap` (modelled as keeping the
graph on error) preserves the network invariant. -/
theorem inv_addEdgeOr {d : Dag} (h : Inv d) (x y : Contact) :
    Inv (match d.addEdge x y with
      | Except.ok dd => dd
      | Except.error _ => d) := by
  cases he : d.addEdge x y with
  | ok dd => exact inv_addEdge_ok h he
  | error _ => exact h

/-- A successful `remove_vertex` keeps the map sorted, keeps every other
vertex, and removes exactly the named one. -/
theorem removeVertex_ok_spec {d : Dag} {x : Contact} {cx : List Contact} {dd : Dag}
    (he : d.removeVertex x = .ok (cx, dd)) :
    (sortedKeys d.adj → sortedKeys dd.adj) ∧
    (∀ a, a ∈ dd.vertices ↔ a ∈ d.vertices ∧ a ≠ x) := by
  unfold Dag.removeVertex at he
  cases hcx : d.connections x with
  | none => simp only [hcx] at he; cases he
  | some cx' =>
    simp only [hcx] at he
    cases he
    constructor
    · intro hs
      exact sorted_filterMap _ _ hs
    · intro a
      rw [Dag.vertices, mem_keys_filterMap]
      constructor
      · rintro ⟨e, he', hp, rfl⟩
        exact ⟨List.mem_map.mpr ⟨e, he', rfl⟩, by simpa using hp⟩
      · rintro ⟨ha, hne⟩
        rcases List.mem_map.mp ha with ⟨e, he', rfl⟩
        exact ⟨e, he', by simpa using hne, rfl⟩

/-- The update's child-edge replay preserves the network invariant. -/
theorem inv_childFold (u : Contact) (children : List Contact) :
    ∀ d : Dag, Inv d →
    Inv (children.foldl (fun acc ch =>
      match acc.addEdge u ch with
      | Except.ok dd => dd
      | Except.error _ => acc) d) := by
  induction children with
  | nil => intro d h; exact h
  | cons ch rest ih =>
    intro d h
    exact ih _ (inv_addEdgeOr h u ch)

/-- The update's parent pass preserves the network invariant whenever the
resolver it calls does. -/
theorem inv_parentLoop (res : Dag → Contact → Option (Bool × Dag))
    (hres : ∀ d c v d', Inv d → res d c = some (v, d') → Inv d')
    (u : Contact) (ps : List Contact) :
    ∀ d d', Inv d → parentLoop res u d ps = some d' → Inv d' := by
  induction ps with
  | nil =>
    intro d d' h hp
    simp only [parentLoop] at hp
    cases hp
    exact h
  | cons p rest ih =>
    intro d d' h hp
    simp only [parentLoop] at hp
    cases hr : res (match d.addEdge p u with
        | Except.ok dd => dd
        | Except.error _ => d) p with
    | none => rw [hr] at hp; cases hp
    | some od =>
      obtain ⟨v, d2⟩ := od
      rw [hr] at hp
      exact ih d2 d' (hres _ _ _ _ (inv_addEdgeOr h p u) hr) hp

/-- `update` preserves the network invariant whenever the replacement keeps
the node's id (as every caller does) and the resolver preserves it. -/
theorem inv_updateWith (res : Dag → Contact → Option (Bool × Dag))
    (hres : ∀ d c v d', Inv d → res d c = some (v, d') → Inv d')
    {d : Dag} {p u : Contact} {d' : Dag}
    (hid : u.id = p.id) (h : Inv d) (hu : updateWith res d p u = some d') : Inv d' := by
  unfold updateWith at hu
  cases hrm : d.removeVertex p with
  | error e =>
    rw [hrm] at hu
    exact inv_parentLoop res hres u _ _ _ (inv_addVertex h u) hu
  | ok pr =>
    obtain ⟨children, drem⟩ := pr
    rw [hrm] at hu
    obtain ⟨hsk, hmem⟩ := removeVertex_ok_spec hrm
    obtain ⟨hs, c0, hc0, hc0id⟩ := h
    have hinv2 : Inv (drem.addVertex u) := by
      by_cases hc0p : c0 = p
      · exact ⟨sorted_insertEntry u [] (hsk hs),
          u, (mem_keys_insertEntry u [] drem.adj u).mpr (Or.inl rfl), by
            rw [hid, ← hc0p]; exact hc0id⟩
      · exact ⟨sorted_insertEntry u [] (hsk hs),
          c0, (mem_keys_insertEntry u [] drem.adj c0).mpr
            (Or.inr ((hmem c0).mpr ⟨hc0, hc0p⟩)), hc0id⟩
    exact inv_parentLoop res hres u _ _ _ (inv_childFold u children _ hinv2) hu

/-- The resolver's child loop preserves the network invariant whenever the
resolver does. -/
theorem inv_foldChildren (res : Dag → Contact → Option (Bool × Dag))
    (hres : ∀ d c v d', Inv d → res d c = some (v, d') → Inv d')
    (cs : List Contact) :
    ∀ d a f a' f' d', Inv d → foldChildren res d cs a f = some (a', f', d') → Inv d' := by
  induction cs with
  | nil =>
    intro d a f a' f' d' h hf
    simp only [foldChildren] at hf
    cases hf
    exact h
  | cons c rest ih =>
    intro d a f a' f' d' h hf
    simp only [foldChildren] at hf
    cases hr : res d c with
    | none => rw [hr] at hf; cases hf
    | some od =>
      obtain ⟨o, d1⟩ := od
      simp only [hr] at hf
      split at hf
      · exact ih _ _ _ _ _ _ (hres _ _ _ _ h hr) hf
      · exact ih _ _ _ _ _ _ (hres _ _ _ _ h hr) hf

/-- Resolution preserves the network invariant, at every fuel. -/
theorem inv_resolveBranch :
    ∀ (n : Nat) (d : Dag) (c : Contact) (v : Bool) (d' : Dag),
    Inv d → resolveBranch n d c = some (v, d') → Inv d' := by
  intro n
  induction n with
  | zero =>
    intro d c v d' _ h
    simp [resolveBranch] at h
  | succ n ih =>
    intro d c v d' hinv h
    simp only [resolveBranch] at h
    cases hcon : d.connections c with
    | none =>
      simp only [hcon] at h
      cases h
      exact hinv
    | some cs =>
      simp only [hcon] at h
      split at h
      · cases h
        exact hinv
      · cases hf : foldChildren (resolveBranch n) d cs c.program false with
        | none => rw [hf] at h; cases h
        | some t =>
          obtain ⟨a, f, d1⟩ := t
          simp only [hf] at h
          have hinv1 : Inv d1 := inv_foldChildren (resolveBranch n) ih cs _ _ _ _ _ _ hinv hf
          split at h
          · cases hu : updateWith (resolveBranch n) d1 c { c with input := a } with
            | none => rw [hu] at h; cases h
            | some d2 =>
              rw [hu] at h
              cases h
              exact inv_updateWith (resolveBranch n) ih
                (show ({ c with input := a } : Contact).id = c.id from rfl) hinv1 hu
          · cases h
            exact hinv1

/-- The bulk-setter loops preserve the network invariant whenever the field
setter keeps the node id (as all three do). -/
theorem inv_applyPairs (n : Nat) (field : Contact → Bool) (set : Contact → Bool → Contact)
    (hset : ∀ c b, (set c b).id = c.id) (ps : List (Contact × Bool)) :
    ∀ d d', Inv d → applyPairs n field set d ps = some d' → Inv d' := by
  induction ps with
  | nil =>
    intro d d' h hp
    simp only [applyPairs] at hp
    cases hp
    exact h
  | cons vs rest ih =>
    intro d d' h hp
    obtain ⟨v, s⟩ := vs
    simp only [applyPairs] at hp
    split at hp
    · cases hu : updateWith (resolveBranch n) d v (set v s) with
      | none => rw [hu] at hp; cases hp
      | some d1 =>
        rw [hu] at hp
        exact ih d1 d' (inv_updateWith (resolveBranch n) (inv_resolveBranch n)
          (hset v s) h hu) hp
    · exact ih d d' h hp

/-- Every public call preserves the network invariant. -/
theorem inv_stepCmd (n : Nat) {d : Dag} (h : Inv d) (cmd : Cmd) :
    Inv (stepCmd n d cmd) := by
  cases cmd with
  | addGate c =>
    simp only [stepCmd, addContact]
    cases hr : resolveBranch n
        (match (d.addVertex ⟨(d.vertices.getLastD dummyContact).id + 1, false, false, false⟩).addEdge
            c ⟨(d.vertices.getLastD dummyContact).id + 1, false, false, false⟩ with
          | Except.ok dd => dd
          | Except.error _ =>
            d.addVertex ⟨(d.vertices.getLastD dummyContact).id + 1, false, false, false⟩)
        (rootC _) with
    | none => exact h
    | some od =>
      obtain ⟨v, d3⟩ := od
      exact inv_resolveBranch n _ _ _ _
        (inv_addEdgeOr (inv_addVertex h _) c _) hr
  | short x y =>
    simp only [stepCmd, shortR]
    cases he : d.addEdge x y with
    | ok dd => exact inv_addEdge_ok h he
    | error _ => exact h
  | removeShort x y =>
    simp only [stepCmd, removeShortR]
    cases he : d.removeEdge x y with
    | ok dd => exact inv_removeEdge_ok h he
    | error _ => exact h
  | reinput iv =>
    simp only [stepCmd, reinputV]
    by_cases hdim : (inputVec d).length ≠ iv.length
    · rw [if_pos hdim]; exact h
    · rw [if_neg hdim]
      cases hp : applyPairs n Contact.input (fun c b => { c with input := b }) d
          ((getInputContacts d).zip iv) with
      | none => exact h
      | some d1 =>
        exact inv_applyPairs n Contact.input (fun c b => { c with input := b })
          (fun _ _ => rfl) _ d d1 h hp
  | reconfigure cv =>
    simp only [stepCmd, reconfigureV]
    by_cases hdim : (configurationVec d).length ≠ cv.length
    · rw [if_pos hdim]; exact h
    · rw [if_neg hdim]
      cases hp : applyPairs n Contact.configuration (fun c b => { c with configuration := b }) d
          (d.vertices.zip cv) with
      | none => exact h
      | some d1 =>
        exact inv_applyPairs n Contact.configuration (fun c b => { c with configuration := b })
          (fun _ _ => rfl) _ d d1 h hp
  | reprogram pv =>
    simp only [stepCmd, reprogramV]
    by_cases hdim : (programVec d).length ≠ pv.length
    · rw [if_pos hdim]; exact h
    · rw [if_neg hdim]
      cases hp : applyPairs n Contact.program (fun c b => { c with program := b }) d
          (d.vertices.zip pv) with
      | none => exact h
      | some d1 =>
        exact inv_applyPairs n Contact.program (fun c b => { c with program := b })
          (fun _ _ => rfl) _ d d1 h hp
  | output =>
    simp only [stepCmd, outputR]
    cases hr : resolveBranch n d (rootC d) with
    | none => exact h
    | some od =>
      obtain ⟨v, d1⟩ := od
      exact inv_resolveBranch n _ _ _ _ h hr

/-- Every state reachable by public calls satisfies the network invariant. -/
theorem inv_runCmds (n : Nat) (cmds : List Cmd) : Inv (runCmds n cmds) := by
  have hstart : Inv newReducer := by
    refine ⟨?_, ⟨0, false, false, false⟩, ?_, rfl⟩
    · simp [newReducer, Dag.addVertex, insertEntry, sortedKeys]
    · simp [newReducer, Dag.addVertex, insertEntry, Dag.vertices]
  rw [runCmds]
  have hgen : ∀ (l : List Cmd) (d : Dag), Inv d → Inv (l.foldl (stepCmd n) d) := by
    intro l
    induction l with
    | nil => intro d h; exact h
    | cons cmd rest ih => intro d h; exact ih _ (inv_stepCmd n h cmd)
  exact hgen cmds newReducer hstart

/-- Witness for C2: the fresh network contains its root, and updating the
root to the copy with `input = true` agrees between the two formulations. -/
theorem c2_witness :
    rootC newReducer ∈ newReducer.vertices ∧
    updateWith (resolveBranch 1) newReducer (rootC newReducer) ⟨0, true, false, false⟩ =
      updateSpec (resolveBranch 1) newReducer (rootC newReducer) ⟨0, true, false, false⟩ :=
  ⟨by decide,
    c2_update_procedure (resolveBranch 1) newReducer (rootC newReducer)
      ⟨0, true, false, false⟩ (by decide)⟩

/-- C8: in every network state reachable through the public surface
(`add_gate`, `short`, `remove_short`, `reinput`, `reconfigure`, `reprogram`,
`output`, at any fuel), a vertex with `id = 0` is present and `root()`
returns exactly that vertex: the returned root is a member of the vertex set
and carries `id = 0`. -/
theorem c8_root_id_zero (n : Nat) (cmds : List Cmd) :
    rootC (runCmds n cmds) ∈ (runCmds n cmds).vertices ∧
    (rootC (runCmds n cmds)).id = 0 :=
  rootC_id_zero (inv_runCmds n cmds)

end BTR
